import Mathlib

/-!
Verification of the help-text normalizer in `usage/printer.go`
(functions `markdownify`, `helpPreprocessor`, `findSectionEnd`, and the
regular expressions `sectionRe` and `sectionNameRe`).

Documents are modelled as lists of bytes (`List Nat`, each element a byte
value).  The Go code reads its input through a `bytes.Buffer`; the relevant
semantics of that type are modelled faithfully:

* `ReadByte` on an empty buffer returns 0 together with an error and resets
  the buffer (so nothing read before can be unread afterwards);
* `UnreadByte` can only undo the single most recent successful read: a second
  consecutive call fails and is a no-op, and a call after a failed read
  fails as well;
* `UnreadByte` on the output buffer (which has only been written to) always
  fails and is a no-op;
* `ReadRune` decodes one UTF-8 rune (invalid bytes decode to U+FFFD), and a
  following `UnreadRune` restores the position exactly.
-/

namespace Printer

/-- Model of the second-byte acceptance range of Go `utf8.DecodeRune` for a
three-byte sequence with leading byte `c`. -/
def accept3 (c c1 : Nat) : Prop :=
  if c = 0xE0 then 0xA0 ≤ c1 ∧ c1 ≤ 0xBF
  else if c = 0xED then 0x80 ≤ c1 ∧ c1 ≤ 0x9F
  else 0x80 ≤ c1 ∧ c1 ≤ 0xBF

instance (c c1 : Nat) : Decidable (accept3 c c1) := by
  unfold accept3; infer_instance

/-- Model of the second-byte acceptance range of Go `utf8.DecodeRune` for a
four-byte sequence with leading byte `c`. -/
def accept4 (c c1 : Nat) : Prop :=
  if c = 0xF0 then 0x90 ≤ c1 ∧ c1 ≤ 0xBF
  else if c = 0xF4 then 0x80 ≤ c1 ∧ c1 ≤ 0x8F
  else 0x80 ≤ c1 ∧ c1 ≤ 0xBF

instance (c c1 : Nat) : Decidable (accept4 c c1) := by
  unfold accept4; infer_instance

/-- Continuation byte range `0x80 ..= 0xBF`. -/
def isCont (c : Nat) : Prop := 0x80 ≤ c ∧ c ≤ 0xBF

instance (c : Nat) : Decidable (isCont c) := by
  unfold isCont; infer_instance

/-- Model of Go `utf8.DecodeRune` applied to the byte list: returns the value
of the first rune, with `0xFFFD` (`RuneError`) for empty or invalid input. -/
def utf8DecodeRune : List Nat → Nat
  | [] => 0xFFFD
  | c :: rest =>
    if c < 0x80 then c
    else if c < 0xC2 then 0xFFFD
    else if c ≤ 0xDF then
      match rest with
      | c1 :: _ => if isCont c1 then (c - 0xC0) * 0x40 + (c1 - 0x80) else 0xFFFD
      | [] => 0xFFFD
    else if c ≤ 0xEF then
      match rest with
      | c1 :: c2 :: _ =>
        if accept3 c c1 ∧ isCont c2 then
          (c - 0xE0) * 0x1000 + (c1 - 0x80) * 0x40 + (c2 - 0x80)
        else 0xFFFD
      | _ => 0xFFFD
    else if c ≤ 0xF4 then
      match rest with
      | c1 :: c2 :: c3 :: _ =>
        if accept4 c c1 ∧ isCont c2 ∧ isCont c3 then
          (c - 0xF0) * 0x40000 + (c1 - 0x80) * 0x1000 + (c2 - 0x80) * 0x40 + (c3 - 0x80)
        else 0xFFFD
      | _ => 0xFFFD
    else 0xFFFD

/-- Model of Go `unicode.IsSpace` on a rune value: the Latin-1 special cases
plus the `White_Space` ranges above Latin-1. -/
def isSpaceRune (r : Nat) : Bool :=
  if r ≤ 0xFF then
    r == 9 || r == 10 || r == 11 || r == 12 || r == 13 || r == 32 || r == 0x85 || r == 0xA0
  else
    r == 0x1680 || (decide (0x2000 ≤ r) && decide (r ≤ 0x200A)) ||
    r == 0x2028 || r == 0x2029 || r == 0x202F || r == 0x205F || r == 0x3000

/-- The bytes of the string "shell" written by `markdownify` after an opening
fence followed by whitespace. -/
def shellBytes : List Nat := [115, 104, 101, 108, 108]

/-- One pass of the loop body of `markdownify` (usage/printer.go lines
134-190), with the scanner state made explicit: `last` is the `last` variable
(the byte of the previous iteration, after any mutation by the
backslash-collapsing branch), `inCode` is the code-block flag, and the list is
the unread part of the input buffer.  Byte values: 60 is the less-than sign,
62 the greater-than sign, 39 the single quote, 42 the asterisk, 92 the
backslash, 96 the backtick, 0 the value a failed `ReadByte` returns.

The lookahead semantics follow `bytes.Buffer` exactly:

* quote case, at least two bytes remaining: both lookahead bytes are read; on
  a mismatch only the second one is successfully unread (the second
  `UnreadByte` call fails), so the first lookahead byte is lost;
* quote case, fewer than two bytes remaining: the failed read resets the
  buffer, both `UnreadByte` calls fail, and the scan ends after the quote is
  written;
* quote match while outside a code block: `ReadRune` / `UnreadRune` leave the
  buffer unchanged and only test whether the next rune is white space;
* asterisk case inside a code block: the lookahead byte is read and, when it
  is not an asterisk, `UnreadByte` is called on the *output* buffer, which
  always fails, so the lookahead byte is lost. -/
def mdAux : Nat → Bool → List Nat → List Nat
  | _, _, [] => []
  | last, inCode, b :: rest =>
    if b = 60 ∨ b = 62 then
      (if ¬ last = 92 ∧ ¬ inCode then 96 else b) :: mdAux b inCode rest
    else if b = 39 then
      match rest with
      | [] => [39]
      | [_] => [39]
      | b1 :: b2 :: r =>
        if b1 = 39 ∧ b2 = 39 then
          96 :: 96 :: 96 ::
            (if ¬ inCode ∧ ¬ r = [] ∧ isSpaceRune (utf8DecodeRune r) then
              shellBytes ++ mdAux 39 (!inCode) r
            else
              mdAux 39 (!inCode) r)
        else
          39 :: mdAux 39 inCode (b2 :: r)
    else if b = 42 then
      if inCode then
        match rest with
        | [] => [42]
        | b1 :: r => if b1 = 42 then mdAux 42 inCode r else 42 :: mdAux 42 inCode r
      else 42 :: mdAux 42 inCode rest
    else if b = 92 then
      if last = 92 then 92 :: mdAux 0 inCode rest else mdAux 92 inCode rest
    else
      b :: mdAux b inCode rest

/-- Model of `markdownify` (usage/printer.go lines 128-191): the scanner is
started with `last = 0` and `inCode = false` on the whole input. -/
def markdownify (input : List Nat) : List Nat := mdAux 0 false input

/-- Model of Go `strings.Index`: the position of the first occurrence of
`p` as a contiguous sublist of the document, `none` when there is no
occurrence (Go returns -1). -/
def strIndex (p : List Nat) : List Nat → Option Nat
  | [] => if p.isPrefixOf ([] : List Nat) then some 0 else none
  | c :: t => if p.isPrefixOf (c :: t) then some 0 else (strIndex p t).map (· + 1)

/-- Model of `FindStringIndex` for a Go multiline-anchored pattern
consisting of a start-of-line anchor followed by the literal bytes `p`
(this covers `sectionRe`, whose pattern is the anchor followed by two hash
marks): the position of the first occurrence of `p` that is at the start of
the scanned text or directly after a newline byte.  The flag records whether
the current position is at the start of a line. -/
def lineStartFind (p : List Nat) : Bool → List Nat → Option Nat
  | _, [] => none
  | a, c :: t =>
    if a ∧ p.isPrefixOf (c :: t) then some 0
    else (lineStartFind p (c = 10) t).map (· + 1)

/-- The bytes of "## ": the section-header prefix. -/
def hdrPrefix : List Nat := [35, 35]

/-- The title bytes "OPTIONS". -/
def bOPTIONS : List Nat := [79, 80, 84, 73, 79, 78, 83]

/-- The title bytes "POSITIONAL ARGUMENTS". -/
def bPOSARGS : List Nat :=
  [80, 79, 83, 73, 84, 73, 79, 78, 65, 76, 32, 65, 82, 71, 85, 77, 69, 78, 84, 83]

/-- The title bytes "Description". -/
def bDescription : List Nat := [68, 101, 115, 99, 114, 105, 112, 116, 105, 111, 110]

/-- The title bytes "USAGE". -/
def bUSAGE : List Nat := [85, 83, 65, 71, 69]

/-- The title bytes "NAME". -/
def bNAME : List Nat := [78, 65, 77, 69]

/-- The header bytes for a title `h`: two hash marks, a space, then `h`
(what Go builds with the format string in `findSectionEnd`). -/
def hdr (h : List Nat) : List Nat := 35 :: 35 :: 32 :: h

/-- Model of `findSectionEnd` (usage/printer.go lines 112-122): the position
just past the section titled `h`, i.e. the position of the first line-start
hash-hash found strictly after the first occurrence of the header, or the
document length when there is no later section; `none` (Go: -1) when the
header does not occur at all.  The inner search starts two bytes past the
header position, exactly as the Go slice `s[start+2:]` does. -/
def findSectionEnd (h s : List Nat) : Option Nat :=
  match strIndex (hdr h) s with
  | none => none
  | some start =>
    match lineStartFind hdrPrefix true (s.drop (start + 2)) with
    | none => some s.length
    | some j => some (start + 2 + j)

/-- Insertion of `opts` into `s2` at position `n` (the Go splice
`s2[:n] + options + s2[n:]`). -/
def insertAt (n : Nat) (opts s2 : List Nat) : List Nat :=
  s2.take n ++ opts ++ s2.drop n

/-- The if-else chain of `helpPreprocessor` (usage/printer.go lines 87-98)
that re-inserts the excised OPTIONS span after the first target section whose
end can be found in the already-excised document `s2`, trying POSITIONAL
ARGUMENTS, Description, USAGE and NAME in that order, and appending at the
end when all four searches fail. -/
def insertByPriority (opts s2 : List Nat) : List Nat :=
  match findSectionEnd bPOSARGS s2 with
  | some n => insertAt n opts s2
  | none =>
    match findSectionEnd bDescription s2 with
    | some n => insertAt n opts s2
    | none =>
      match findSectionEnd bUSAGE s2 with
      | some n => insertAt n opts s2
      | none =>
        match findSectionEnd bNAME s2 with
        | some n => insertAt n opts s2
        | none => s2 ++ opts

/-- Model of the OPTIONS-relocation step of `helpPreprocessor`
(usage/printer.go lines 81-100): find the first occurrence of the bytes of
"## OPTIONS", compute the section end, excise the span, and re-insert it by
the priority chain; the document is returned unchanged when the header bytes
do not occur (and, as in the Go code, when `findSectionEnd` fails). -/
def relocateOptions (s : List Nat) : List Nat :=
  match strIndex (hdr bOPTIONS) s with
  | none => s
  | some optLoc =>
    match findSectionEnd bOPTIONS s with
    | none => s
    | some optEnd =>
      insertByPriority ((s.drop optLoc).take (optEnd - optLoc))
        (s.take optLoc ++ s.drop optEnd)

/-- Modelled from the spec: the relocation variant the specification
describes in section 4.2, step 3, where the end-of-extent position of the
chosen target section is "computed the same way as step 1, before the
excision — i.e., using original section boundaries, not recomputed after
removing OPTIONS".  The target searches therefore run on the original
document `s` while the splice is performed on the excised document, with
out-of-range positions clamped to the end.  This definition exists only to
be compared with `relocateOptions`, which transcribes the code. -/
def relocateOptionsSpecPre (s : List Nat) : List Nat :=
  match strIndex (hdr bOPTIONS) s with
  | none => s
  | some optLoc =>
    match findSectionEnd bOPTIONS s with
    | none => s
    | some optEnd =>
      let opts := (s.drop optLoc).take (optEnd - optLoc)
      let s2 := s.take optLoc ++ s.drop optEnd
      match findSectionEnd bPOSARGS s with
      | some n => insertAt n opts s2
      | none =>
        match findSectionEnd bDescription s with
        | some n => insertAt n opts s2
        | none =>
          match findSectionEnd bUSAGE s with
          | some n => insertAt n opts s2
          | none =>
            match findSectionEnd bNAME s with
            | some n => insertAt n opts s2
            | none => s2 ++ opts

/-- Model of Go `unicode.ToLower` on rune values: ASCII upper-case letters
and the Latin-1 upper-case letters U+00C0 ..= U+00DE (except the
multiplication sign U+00D7) map 32 places down, exactly as in the Unicode
case table; every other rune below 0x100, and U+FFFD, has no lower-case
mapping and is returned unchanged, again exactly as in the table.  Runes at
or above 0x100 are returned unchanged, which is outside the table's letters:
the theorems that use this model therefore restrict header bytes to values
below 0xC4, whose decoded runes all lie below 0x100 (or are U+FFFD), so the
model is exact on every input they quantify over. -/
def toLowerRune (r : Nat) : Nat :=
  if 65 ≤ r ∧ r ≤ 90 then r + 32
  else if 0xC0 ≤ r ∧ r ≤ 0xDE ∧ ¬ r = 0xD7 then r + 32
  else r

/-- Model of Go `utf8.EncodeRune`: the UTF-8 bytes of a rune value, with the
replacement character emitted for surrogates and out-of-range values (the
callers in this development only encode runes obtained from decoding, or
U+FFFD itself). -/
def utf8Encode (r : Nat) : List Nat :=
  if (0xD800 ≤ r ∧ r ≤ 0xDFFF) ∨ 0x10FFFF < r then [0xEF, 0xBF, 0xBD]
  else if r < 0x80 then [r]
  else if r < 0x800 then [0xC0 + r / 0x40, 0x80 + r % 0x40]
  else if r < 0x10000 then [0xE0 + r / 0x1000, 0x80 + r / 0x40 % 0x40, 0x80 + r % 0x40]
  else
    [0xF0 + r / 0x40000, 0x80 + r / 0x1000 % 0x40, 0x80 + r / 0x40 % 0x40, 0x80 + r % 0x40]

/-- Model of Go `strings.ToLower` on a byte list, i.e. of
`strings.Map(unicode.ToLower, s)`: the input is decoded rune by rune with
the semantics of `utf8.DecodeRuneInString` (an invalid byte — a stray
continuation byte, an over-long or out-of-range lead, a lead whose
continuation bytes are missing or unacceptable — yields U+FFFD and consumes
exactly one byte), each rune is passed through `toLowerRune`, and the result
is re-encoded, so that U+FFFD appears in the output as its three-byte
encoding.  This matches the library function exactly on every input whose
bytes are below 0xC4 (see `toLowerRune`): such input decodes only to ASCII,
Latin-1 or U+FFFD runes. -/
def goToLower : List Nat → List Nat
  | [] => []
  | [c] =>
    if c < 0x80 then utf8Encode (toLowerRune c)
    else utf8Encode 0xFFFD
  | [c, c1] =>
    if c < 0x80 then utf8Encode (toLowerRune c) ++ goToLower [c1]
    else if c < 0xC2 then utf8Encode 0xFFFD ++ goToLower [c1]
    else if c ≤ 0xDF then
      if isCont c1 then utf8Encode (toLowerRune ((c - 0xC0) * 0x40 + (c1 - 0x80)))
      else utf8Encode 0xFFFD ++ goToLower [c1]
    else utf8Encode 0xFFFD ++ goToLower [c1]
  | [c, c1, c2] =>
    if c < 0x80 then utf8Encode (toLowerRune c) ++ goToLower [c1, c2]
    else if c < 0xC2 then utf8Encode 0xFFFD ++ goToLower [c1, c2]
    else if c ≤ 0xDF then
      if isCont c1 then
        utf8Encode (toLowerRune ((c - 0xC0) * 0x40 + (c1 - 0x80))) ++ goToLower [c2]
      else utf8Encode 0xFFFD ++ goToLower [c1, c2]
    else if c ≤ 0xEF then
      if accept3 c c1 ∧ isCont c2 then
        utf8Encode (toLowerRune ((c - 0xE0) * 0x1000 + (c1 - 0x80) * 0x40 + (c2 - 0x80)))
      else utf8Encode 0xFFFD ++ goToLower [c1, c2]
    else utf8Encode 0xFFFD ++ goToLower [c1, c2]
  | c :: c1 :: c2 :: c3 :: rest =>
    if c < 0x80 then utf8Encode (toLowerRune c) ++ goToLower (c1 :: c2 :: c3 :: rest)
    else if c < 0xC2 then utf8Encode 0xFFFD ++ goToLower (c1 :: c2 :: c3 :: rest)
    else if c ≤ 0xDF then
      if isCont c1 then
        utf8Encode (toLowerRune ((c - 0xC0) * 0x40 + (c1 - 0x80)))
          ++ goToLower (c2 :: c3 :: rest)
      else utf8Encode 0xFFFD ++ goToLower (c1 :: c2 :: c3 :: rest)
    else if c ≤ 0xEF then
      if accept3 c c1 ∧ isCont c2 then
        utf8Encode (toLowerRune ((c - 0xE0) * 0x1000 + (c1 - 0x80) * 0x40 + (c2 - 0x80)))
          ++ goToLower (c3 :: rest)
      else utf8Encode 0xFFFD ++ goToLower (c1 :: c2 :: c3 :: rest)
    else if c ≤ 0xF4 then
      if accept4 c c1 ∧ isCont c2 ∧ isCont c3 then
        utf8Encode (toLowerRune ((c - 0xF0) * 0x40000 + (c1 - 0x80) * 0x1000 +
          (c2 - 0x80) * 0x40 + (c3 - 0x80))) ++ goToLower rest
      else utf8Encode 0xFFFD ++ goToLower (c1 :: c2 :: c3 :: rest)
    else utf8Encode 0xFFFD ++ goToLower (c1 :: c2 :: c3 :: rest)

/-- Scanner state for the byte automaton modelling
`sectionNameRe.ReplaceAllStringFunc`.  The pattern of `sectionNameRe` is a
multiline start-of-line anchor, the bytes "## ", and then one or more
non-newline bytes taken greedily to the end of the line (byte-wise this is
the maximal run of bytes other than 10, since the newline byte never occurs
inside a multi-byte UTF-8 encoding).  `start` is a line start; `h1`, `h2`,
`h3` record that one hash mark, two hash marks, or two hash marks and a
space have been read since the line start; `low acc` is inside the matched
title after its first byte, with the bytes read so far collected (in
reverse) in `acc` so that the replacement can apply `goToLower` to the whole
tail of the match at once, exactly as the Go code applies `strings.ToLower`
to the slice `s[4:]` of the match; `mid` is any other mid-line position,
where no match can begin. -/
inductive CapState where
  | start : CapState
  | h1 : CapState
  | h2 : CapState
  | h3 : CapState
  | low : List Nat → CapState
  | mid : CapState

/-- Model of `sectionNameRe.ReplaceAllStringFunc` with the replacement
function of usage/printer.go lines 104-106: every match of the pattern (see
`CapState`) is replaced by its first four bytes followed by `goToLower` of
its remaining bytes, and text outside matches is left unchanged.  A match
begins at a line start with "## " plus a non-newline byte; those four bytes
pass through unchanged (even when the fourth byte is only the first byte of
a multi-byte title character, which the slice `s[0:4]` then splits), the
rest of the line is collected in state `low`, and `goToLower` of it is
emitted at the newline or at the end of the document.  A line start with
"## " followed directly by a newline or the end of the document is not a
match, because the pattern requires at least one title byte. -/
def capLinesAux : CapState → List Nat → List Nat
  | CapState.start, [] => []
  | CapState.h1, [] => []
  | CapState.h2, [] => []
  | CapState.h3, [] => []
  | CapState.mid, [] => []
  | CapState.low acc, [] => goToLower acc.reverse
  | CapState.start, c :: t =>
    if c = 35 then 35 :: capLinesAux CapState.h1 t
    else if c = 10 then 10 :: capLinesAux CapState.start t
    else c :: capLinesAux CapState.mid t
  | CapState.h1, c :: t =>
    if c = 35 then 35 :: capLinesAux CapState.h2 t
    else if c = 10 then 10 :: capLinesAux CapState.start t
    else c :: capLinesAux CapState.mid t
  | CapState.h2, c :: t =>
    if c = 32 then 32 :: capLinesAux CapState.h3 t
    else if c = 10 then 10 :: capLinesAux CapState.start t
    else c :: capLinesAux CapState.mid t
  | CapState.h3, c :: t =>
    if c = 10 then 10 :: capLinesAux CapState.start t
    else c :: capLinesAux (CapState.low []) t
  | CapState.low acc, c :: t =>
    if c = 10 then goToLower acc.reverse ++ 10 :: capLinesAux CapState.start t
    else capLinesAux (CapState.low (c :: acc)) t
  | CapState.mid, c :: t =>
    if c = 10 then 10 :: capLinesAux CapState.start t
    else c :: capLinesAux CapState.mid t

/-- Model of the capitalization step of `helpPreprocessor`
(usage/printer.go lines 103-107), applied when `capOnlyFirst` is true. -/
def capLines (s : List Nat) : List Nat := capLinesAux CapState.start s

/-- Model of the full `helpPreprocessor` normalization pipeline applied to
the already-rendered template text (usage/printer.go lines 77-109):
`markdownify`, then the OPTIONS relocation, then, when `capOnlyFirst` is
set, the header capitalization rewrite. -/
def helpNormalize (capOnlyFirst : Bool) (input : List Nat) : List Nat :=
  let s := relocateOptions (markdownify input)
  if capOnlyFirst then capLines s else s

/-! Step lemmas for the `markdownify` scanner. -/

lemma mdAux_lt (last : Nat) (inCode : Bool) (t : List Nat) :
    mdAux last inCode (60 :: t) =
      (if ¬ last = 92 ∧ ¬ inCode then 96 else 60) :: mdAux 60 inCode t := by
  rw [mdAux.eq_def]
  norm_num

lemma mdAux_gt (last : Nat) (inCode : Bool) (t : List Nat) :
    mdAux last inCode (62 :: t) =
      (if ¬ last = 92 ∧ ¬ inCode then 96 else 62) :: mdAux 62 inCode t := by
  rw [mdAux.eq_def]
  norm_num

lemma mdAux_backslash (last : Nat) (inCode : Bool) (t : List Nat) :
    mdAux last inCode (92 :: t) =
      if last = 92 then 92 :: mdAux 0 inCode t else mdAux 92 inCode t := by
  rw [mdAux.eq_def]
  norm_num

lemma mdAux_quote3 (last : Nat) (inCode : Bool) (r : List Nat) :
    mdAux last inCode (39 :: 39 :: 39 :: r) =
      96 :: 96 :: 96 ::
        (if ¬ inCode ∧ ¬ r = [] ∧ isSpaceRune (utf8DecodeRune r) then
          shellBytes ++ mdAux 39 (!inCode) r
        else
          mdAux 39 (!inCode) r) := by
  rw [mdAux.eq_def]
  norm_num

lemma mdAux_star_out (last : Nat) (t : List Nat) :
    mdAux last false (42 :: t) = 42 :: mdAux 42 false t := by
  rw [mdAux.eq_def]
  norm_num

lemma mdAux_default (last : Nat) (inCode : Bool) (b : Nat) (t : List Nat)
    (h60 : ¬ b = 60) (h62 : ¬ b = 62) (h39 : ¬ b = 39) (h42 : ¬ b = 42) (h92 : ¬ b = 92) :
    mdAux last inCode (b :: t) = b :: mdAux b inCode t := by
  rw [mdAux.eq_def]
  simp [h60, h62, h39, h42, h92]

/-- C1, counterexample.  The claim says a less-than sign whose immediately
preceding input byte is a backslash is emitted literally.  On the input
backslash-backslash-less-than the byte before the bracket is a backslash,
yet the code collapses the pair, clears its lookback state, and converts
the bracket to a backtick: the output is a backslash followed by a backtick
and contains no literal less-than byte. -/
theorem c1_counterexample :
    markdownify [92, 92, 60] = [92, 96] ∧ ¬ 60 ∈ markdownify [92, 92, 60] := by
  decide

/-- C1, amended.  For every scanner state: a less-than or greater-than byte
becomes a backtick exactly when the scanner's lookback byte is not a
backslash and the scanner is outside a code block, and is emitted literally
otherwise; and when the lookback byte is not a backslash, a
backslash-then-bracket pair emits the literal bracket while the backslash is
consumed.  The lookback byte agrees with the preceding input byte except
after a collapsed backslash pair, where it is cleared. -/
theorem c1_brackets (last : Nat) (inCode : Bool) (t : List Nat) :
    (mdAux last inCode (60 :: t) =
      (if ¬ last = 92 ∧ ¬ inCode then 96 else 60) :: mdAux 60 inCode t)
  ∧ (mdAux last inCode (62 :: t) =
      (if ¬ last = 92 ∧ ¬ inCode then 96 else 62) :: mdAux 62 inCode t)
  ∧ (¬ last = 92 → mdAux last inCode (92 :: 60 :: t) = 60 :: mdAux 60 inCode t)
  ∧ (¬ last = 92 → mdAux last inCode (92 :: 62 :: t) = 62 :: mdAux 62 inCode t) := by
  refine ⟨mdAux_lt last inCode t, mdAux_gt last inCode t, fun h => ?_, fun h => ?_⟩
  · rw [mdAux_backslash, if_neg h, mdAux_lt]
    norm_num
  · rw [mdAux_backslash, if_neg h, mdAux_gt]
    norm_num

/-- C1, witness: a backslash-escaped bracket at the start of the stream is
emitted literally with the backslash consumed. -/
theorem c1_brackets_witness : markdownify [92, 60] = [60] := by
  have h := (c1_brackets 0 false []).2.2.1 (by decide)
  exact h.trans (by decide)

/-- C3, confirmed.  A run of three single quotes is replaced by three
backticks and the code-block state is toggled; on an opening fence only, the
word "shell" follows the backticks when the next rune is white space, and
the rest of the input (beginning with that whitespace byte) is still
scanned; an ASCII whitespace byte reached in code-block state is emitted
unchanged, so the whitespace appears in the output after "shell". -/
theorem c3_fence (last : Nat) (inCode : Bool) (r : List Nat) :
    (mdAux last inCode (39 :: 39 :: 39 :: r) =
      96 :: 96 :: 96 ::
        (if ¬ inCode ∧ ¬ r = [] ∧ isSpaceRune (utf8DecodeRune r) then
          shellBytes ++ mdAux 39 (!inCode) r
        else
          mdAux 39 (!inCode) r))
  ∧ (∀ c r2, c = 9 ∨ c = 10 ∨ c = 11 ∨ c = 12 ∨ c = 13 ∨ c = 32 →
      mdAux 39 true (c :: r2) = c :: mdAux c true r2) := by
  refine ⟨mdAux_quote3 last inCode r, ?_⟩
  rintro c r2 (rfl | rfl | rfl | rfl | rfl | rfl) <;>
    exact mdAux_default _ _ _ _ (by norm_num) (by norm_num) (by norm_num) (by norm_num)
      (by norm_num)

/-- C3, witness: an opening fence followed by a newline produces the three
backticks, the word "shell", and then the newline itself. -/
theorem c3_fence_witness :
    markdownify [39, 39, 39, 10, 97] = [96, 96, 96, 115, 104, 101, 108, 108, 10, 97] ∧
    mdAux 39 true [10, 97] = 10 :: mdAux 10 true [97] := by
  have h1 := (c3_fence 0 false [10, 97]).1
  have h2 := (c3_fence 0 false [10, 97]).2 10 [97] (by norm_num)
  exact ⟨h1.trans (by decide), h2⟩

/-- C6, counterexample.  The claim says a lone backslash not followed by a
bracket is preserved in the output; the code instead consumes it: on input
backslash-then-letter the output is just the letter and contains no
backslash. -/
theorem c6_counterexample :
    markdownify [92, 97] = [97] ∧ ¬ 92 ∈ markdownify [92, 97] := by
  decide

/-- C6, amended.  A backslash whose lookback byte is not a backslash is
consumed and produces no output (it only arms the escape state); a second
consecutive backslash is emitted, so a doubled backslash collapses to a
single one; in particular a lone backslash not followed by a bracket escape
is dropped, not preserved. -/
theorem c6_backslashes (last : Nat) (inCode : Bool) (t : List Nat) :
    (¬ last = 92 → mdAux last inCode (92 :: t) = mdAux 92 inCode t)
  ∧ (mdAux 92 inCode (92 :: t) = 92 :: mdAux 0 inCode t)
  ∧ (¬ last = 92 → mdAux last inCode (92 :: 92 :: t) = 92 :: mdAux 0 inCode t) := by
  refine ⟨fun h => ?_, ?_, fun h => ?_⟩
  · rw [mdAux_backslash, if_neg h]
  · rw [mdAux_backslash, if_pos rfl]
  · rw [mdAux_backslash, if_neg h, mdAux_backslash, if_pos rfl]

/-- C6, witness: a doubled backslash collapses to a single backslash. -/
theorem c6_backslashes_witness : markdownify [92, 92] = [92] := by
  have h := (c6_backslashes 0 false []).2.2 (by decide)
  exact h.trans (by decide)

/-- C7, failing input.  A quote that does not open a triple loses the first
of the two lookahead bytes read to check for the triple, because the second
consecutive `UnreadByte` on a `bytes.Buffer` always fails: on input
quote-a-b the output is quote-b and the byte a is gone, contradicting the
claim that all input bytes after the quote still appear in the output. -/
theorem c7_quote_lookahead_lost :
    markdownify [39, 97, 98] = [39, 98] ∧ ¬ 97 ∈ markdownify [39, 97, 98] := by
  decide

/-- C8, failing input.  Inside a code block, an asterisk not followed by a
second asterisk is emitted, but the lookahead byte read after it is lost
because `UnreadByte` is called on the output buffer (which has no previous
read) instead of the input: after the opening fence of quote-quote-quote,
the input star-a-b produces star-b and the byte a is gone, contradicting the
claim that the character following the kept asterisk is preserved. -/
theorem c8_star_follower_lost :
    markdownify [39, 39, 39, 42, 97, 98] = [96, 96, 96, 42, 98] ∧
    ¬ 97 ∈ markdownify [39, 39, 39, 42, 97, 98] := by
  decide

/-- C10, confirmed.  After a collapsed backslash pair the lookback state is
cleared, so a bracket directly after the pair counts as unescaped: outside a
code block, backslash-backslash-bracket yields a backslash followed by a
backtick. -/
theorem c10_collapsed_pair (last : Nat) (t : List Nat) (h : ¬ last = 92) :
    (mdAux last false (92 :: 92 :: 60 :: t) = 92 :: 96 :: mdAux 60 false t)
  ∧ (mdAux last false (92 :: 92 :: 62 :: t) = 92 :: 96 :: mdAux 62 false t) := by
  constructor
  · rw [mdAux_backslash, if_neg h, mdAux_backslash, if_pos rfl, mdAux_lt]
    norm_num
  · rw [mdAux_backslash, if_neg h, mdAux_backslash, if_pos rfl, mdAux_gt]
    norm_num

/-- C10, witness: backslash-backslash-greater-than from the initial state
produces backslash-backtick. -/
theorem c10_collapsed_pair_witness : markdownify [92, 92, 62] = [92, 96] := by
  have h := (c10_collapsed_pair 0 [] (by decide)).2
  exact h.trans (by decide)

/-! Lemmas about `strIndex`, `findSectionEnd` and the relocation step. -/

lemma strIndex_some_prefix (p : List Nat) :
    ∀ (l : List Nat) (k : Nat), strIndex p l = some k → p.isPrefixOf (l.drop k) = true
  | [], k => by
    intro h
    unfold strIndex at h
    by_cases hp : p.isPrefixOf ([] : List Nat) = true
    · rw [if_pos hp] at h
      cases h
      exact hp
    · rw [if_neg hp] at h
      cases h
  | c :: t, k => by
    intro h
    unfold strIndex at h
    by_cases hp : p.isPrefixOf (c :: t) = true
    · rw [if_pos hp] at h
      cases h
      exact hp
    · rw [if_neg hp] at h
      rcases Option.map_eq_some'.mp h with ⟨k0, hk0, rfl⟩
      exact strIndex_some_prefix p t k0 hk0

lemma fse_some_of_index (h s : List Nat) (k : Nat) (hk : strIndex (hdr h) s = some k) :
    ∃ e, findSectionEnd h s = some e := by
  unfold findSectionEnd
  cases hy : lineStartFind hdrPrefix true (s.drop (k + 2)) with
  | none => exact ⟨s.length, by simp only [hk, hy]⟩
  | some j => exact ⟨k + 2 + j, by simp only [hk, hy]⟩

lemma fse_none_iff (h s : List Nat) :
    findSectionEnd h s = none ↔ strIndex (hdr h) s = none := by
  unfold findSectionEnd
  cases hx : strIndex (hdr h) s with
  | none => simp
  | some k =>
    cases hy : lineStartFind hdrPrefix true (s.drop (k + 2)) with
    | none => simp [hy]
    | some j => simp [hy]

/-- C2, counterexample.  The document consisting of the line
"x## OPTIONSy", a NAME section and a trailing line contains no section
headed "## OPTIONS" (the header bytes occur only mid-line, as the
`lineStartFind` conjunct states), yet the relocation step rewrites the
document instead of leaving it unchanged, because the code searches for the
substring with `strings.Index`, not for a header line. -/
theorem c2_counterexample :
    lineStartFind (hdr bOPTIONS) true
      [120, 35, 35, 32, 79, 80, 84, 73, 79, 78, 83, 121, 10, 35, 35, 32, 78, 65, 77, 69, 10,
        122, 10] = none ∧
    relocateOptions
      [120, 35, 35, 32, 79, 80, 84, 73, 79, 78, 83, 121, 10, 35, 35, 32, 78, 65, 77, 69, 10,
        122, 10] =
      [120, 35, 35, 32, 78, 65, 77, 69, 10, 122, 10, 35, 35, 32, 79, 80, 84, 73, 79, 78, 83,
        121, 10] := by
  decide

/-- C2, amended.  The relocation is driven by the first occurrence of the
substring "## OPTIONS" (not necessarily a header line): when the substring
is absent the document is unchanged; when it occurs at position k, the span
from k to the section end e (the next line-start "##", or the document end)
is excised and handed to the priority chain; the section end behind the
excised span is the position of the first line-start "##" found strictly
after the header position (two bytes past it, as the Go slice s[start+2:]
scans), or the document length when no such line exists; a target "exists"
exactly when its header substring occurs in the excised document
(`findSectionEnd` returns none iff the substring search fails); the chain
inserts the span at the end of the first existing target among POSITIONAL
ARGUMENTS, Description, USAGE and NAME, in that order, and appends it at
the end of the document when none of the four exists. -/
theorem c2_relocation :
    (∀ s, strIndex (hdr bOPTIONS) s = none → relocateOptions s = s)
  ∧ (∀ s k, strIndex (hdr bOPTIONS) s = some k →
      ∃ e, findSectionEnd bOPTIONS s = some e ∧
        relocateOptions s =
          insertByPriority ((s.drop k).take (e - k)) (s.take k ++ s.drop e))
  ∧ (∀ h s k, strIndex (hdr h) s = some k →
      lineStartFind hdrPrefix true (s.drop (k + 2)) = none →
      findSectionEnd h s = some s.length)
  ∧ (∀ h s k j, strIndex (hdr h) s = some k →
      lineStartFind hdrPrefix true (s.drop (k + 2)) = some j →
      findSectionEnd h s = some (k + 2 + j))
  ∧ (∀ h s, findSectionEnd h s = none ↔ strIndex (hdr h) s = none)
  ∧ (∀ opts s2 n, findSectionEnd bPOSARGS s2 = some n →
      insertByPriority opts s2 = insertAt n opts s2)
  ∧ (∀ opts s2 n, findSectionEnd bPOSARGS s2 = none →
      findSectionEnd bDescription s2 = some n →
      insertByPriority opts s2 = insertAt n opts s2)
  ∧ (∀ opts s2 n, findSectionEnd bPOSARGS s2 = none →
      findSectionEnd bDescription s2 = none → findSectionEnd bUSAGE s2 = some n →
      insertByPriority opts s2 = insertAt n opts s2)
  ∧ (∀ opts s2 n, findSectionEnd bPOSARGS s2 = none →
      findSectionEnd bDescription s2 = none → findSectionEnd bUSAGE s2 = none →
      findSectionEnd bNAME s2 = some n →
      insertByPriority opts s2 = insertAt n opts s2)
  ∧ (∀ opts s2, findSectionEnd bPOSARGS s2 = none →
      findSectionEnd bDescription s2 = none → findSectionEnd bUSAGE s2 = none →
      findSectionEnd bNAME s2 = none →
      insertByPriority opts s2 = s2 ++ opts) := by
  refine ⟨?_, ?_, ?_, ?_, fse_none_iff, ?_, ?_, ?_, ?_, ?_⟩
  · intro s h
    simp only [relocateOptions, h]
  · intro s k hk
    obtain ⟨e, he⟩ := fse_some_of_index bOPTIONS s k hk
    refine ⟨e, he, ?_⟩
    simp only [relocateOptions, hk, he]
  · intro h s k hk hj
    unfold findSectionEnd
    simp only [hk, hj]
  · intro h s k j hk hj
    unfold findSectionEnd
    simp only [hk, hj]
  · intro opts s2 n h1
    simp only [insertByPriority, h1]
  · intro opts s2 n h1 h2
    simp only [insertByPriority, h1, h2]
  · intro opts s2 n h1 h2 h3
    simp only [insertByPriority, h1, h2, h3]
  · intro opts s2 n h1 h2 h3 h4
    simp only [insertByPriority, h1, h2, h3, h4]
  · intro opts s2 h1 h2 h3 h4
    simp only [insertByPriority, h1, h2, h3, h4]

/-- C2, witness: a document without the OPTIONS header bytes is unchanged,
and the priority chain appends at the end when no target section exists. -/
theorem c2_relocation_witness :
    relocateOptions [97] = [97] ∧ insertByPriority [120] [97] = [97, 120] := by
  refine ⟨c2_relocation.1 [97] (by decide), ?_⟩
  have h := c2_relocation.2.2.2.2.2.2.2.2.2 [120] [97] (by decide) (by decide) (by decide)
    (by decide)
  exact h.trans (by decide)

/-- C5, counterexample.  On the document with sections OPTIONS, NAME, ZZZ
(in that order) the code inserts the excised OPTIONS span at the NAME
section end recomputed on the excised document (between NAME and ZZZ),
while the relocation described by the claim, with the target position
computed on the original document before excision, appends it after ZZZ:
the two final texts differ, and this is a document in which OPTIONS
precedes the chosen target section, so the claimed equivalence fails too. -/
theorem c5_counterexample :
    relocateOptions
      [35, 35, 32, 79, 80, 84, 73, 79, 78, 83, 10, 111, 10, 35, 35, 32, 78, 65, 77, 69, 10,
        110, 10, 35, 35, 32, 90, 90, 90, 10, 122, 10] =
      [35, 35, 32, 78, 65, 77, 69, 10, 110, 10, 35, 35, 32, 79, 80, 84, 73, 79, 78, 83, 10,
        111, 10, 35, 35, 32, 90, 90, 90, 10, 122, 10] ∧
    relocateOptionsSpecPre
      [35, 35, 32, 79, 80, 84, 73, 79, 78, 83, 10, 111, 10, 35, 35, 32, 78, 65, 77, 69, 10,
        110, 10, 35, 35, 32, 90, 90, 90, 10, 122, 10] =
      [35, 35, 32, 78, 65, 77, 69, 10, 110, 10, 35, 35, 32, 90, 90, 90, 10, 122, 10, 35, 35,
        32, 79, 80, 84, 73, 79, 78, 83, 10, 111, 10] ∧
    relocateOptions
      [35, 35, 32, 79, 80, 84, 73, 79, 78, 83, 10, 111, 10, 35, 35, 32, 78, 65, 77, 69, 10,
        110, 10, 35, 35, 32, 90, 90, 90, 10, 122, 10] ≠
    relocateOptionsSpecPre
      [35, 35, 32, 79, 80, 84, 73, 79, 78, 83, 10, 111, 10, 35, 35, 32, 78, 65, 77, 69, 10,
        110, 10, 35, 35, 32, 90, 90, 90, 10, 122, 10] := by
  refine ⟨by decide, by decide, ?_⟩
  decide

/-- C5, amended.  The insertion position is the end-of-extent offset of the
target section recomputed on the document with the OPTIONS span removed
(the Go code reassigns s before searching for the targets); when the
before-excision computation happens to give the same offset, as it does
whenever OPTIONS follows the chosen target section, the spec-worded variant
produces the same final text. -/
theorem c5_insert_position (s : List Nat) (k e n : Nat)
    (hk : strIndex (hdr bOPTIONS) s = some k)
    (he : findSectionEnd bOPTIONS s = some e)
    (hn : findSectionEnd bPOSARGS (s.take k ++ s.drop e) = some n) :
    relocateOptions s = insertAt n ((s.drop k).take (e - k)) (s.take k ++ s.drop e)
  ∧ (findSectionEnd bPOSARGS s = some n →
      relocateOptionsSpecPre s =
        insertAt n ((s.drop k).take (e - k)) (s.take k ++ s.drop e)) := by
  constructor
  · simp only [relocateOptions, insertByPriority, hk, he, hn]
  · intro hn0
    simp only [relocateOptionsSpecPre, hk, he, hn0]

/-- C5, witness: on a document where OPTIONS follows POSITIONAL ARGUMENTS,
the code and the spec-worded variant both re-insert the span at the same
place, here reproducing the original document. -/
theorem c5_insert_position_witness :
    relocateOptions
      [35, 35, 32, 80, 79, 83, 73, 84, 73, 79, 78, 65, 76, 32, 65, 82, 71, 85, 77, 69, 78,
        84, 83, 10, 112, 10, 35, 35, 32, 79, 80, 84, 73, 79, 78, 83, 10, 111, 10] =
      [35, 35, 32, 80, 79, 83, 73, 84, 73, 79, 78, 65, 76, 32, 65, 82, 71, 85, 77, 69, 78,
        84, 83, 10, 112, 10, 35, 35, 32, 79, 80, 84, 73, 79, 78, 83, 10, 111, 10] ∧
    relocateOptionsSpecPre
      [35, 35, 32, 80, 79, 83, 73, 84, 73, 79, 78, 65, 76, 32, 65, 82, 71, 85, 77, 69, 78,
        84, 83, 10, 112, 10, 35, 35, 32, 79, 80, 84, 73, 79, 78, 83, 10, 111, 10] =
      [35, 35, 32, 80, 79, 83, 73, 84, 73, 79, 78, 65, 76, 32, 65, 82, 71, 85, 77, 69, 78,
        84, 83, 10, 112, 10, 35, 35, 32, 79, 80, 84, 73, 79, 78, 83, 10, 111, 10] := by
  have h := c5_insert_position
    [35, 35, 32, 80, 79, 83, 73, 84, 73, 79, 78, 65, 76, 32, 65, 82, 71, 85, 77, 69, 78,
      84, 83, 10, 112, 10, 35, 35, 32, 79, 80, 84, 73, 79, 78, 83, 10, 111, 10]
    26 39 26 (by decide) (by decide) (by decide)
  exact ⟨h.1.trans (by decide), (h.2 (by decide)).trans (by decide)⟩

/-! Lemmas about the capitalization automaton. -/

lemma capLow_flush (r : List Nat) : ∀ (xs acc : List Nat), (∀ c ∈ xs, ¬ c = 10) →
    capLinesAux (CapState.low acc) (xs ++ 10 :: r) =
      goToLower (acc.reverse ++ xs) ++ 10 :: capLinesAux CapState.start r
  | [], acc, _ => by simp [capLinesAux]
  | c :: cs, acc, h => by
    have hc : ¬ c = 10 := h c (by simp)
    have ih := capLow_flush r cs (c :: acc) (fun d hd => h d (by simp [hd]))
    simp only [List.cons_append, capLinesAux, if_neg hc, List.append_eq]
    rw [ih]
    simp

lemma capLow_flush_end : ∀ (xs acc : List Nat), (∀ c ∈ xs, ¬ c = 10) →
    capLinesAux (CapState.low acc) xs = goToLower (acc.reverse ++ xs)
  | [], acc, _ => by simp [capLinesAux]
  | c :: cs, acc, h => by
    have hc : ¬ c = 10 := h c (by simp)
    have ih := capLow_flush_end cs (c :: acc) (fun d hd => h d (by simp [hd]))
    simp only [capLinesAux, if_neg hc]
    rw [ih]
    simp

lemma utf8Encode_toLower_ascii (c : Nat) (hc : c < 128) :
    utf8Encode (toLowerRune c) = [if 65 ≤ c ∧ c ≤ 90 then c + 32 else c] := by
  by_cases hU : 65 ≤ c ∧ c ≤ 90
  · rw [if_pos hU]
    have h1 : toLowerRune c = c + 32 := by simp only [toLowerRune, if_pos hU]
    rw [h1]
    simp only [utf8Encode]
    rw [if_neg (by omega), if_pos (by omega)]
  · rw [if_neg hU]
    have h1 : toLowerRune c = c := by
      simp only [toLowerRune]
      rw [if_neg hU, if_neg (by omega)]
    rw [h1]
    simp only [utf8Encode]
    rw [if_neg (by omega), if_pos hc]

set_option maxRecDepth 4096 in
lemma goToLower_ascii_cons (c : Nat) (cs : List Nat) (hc : c < 128) :
    goToLower (c :: cs) = utf8Encode (toLowerRune c) ++ goToLower cs := by
  rcases cs with _ | ⟨c1, _ | ⟨c2, _ | ⟨c3, rest⟩⟩⟩
  · rw [goToLower.eq_def]
    simp only [if_pos hc]
    simp [goToLower]
  · rw [goToLower.eq_def]
    simp only [if_pos hc]
  · rw [goToLower.eq_def]
    simp only [if_pos hc]
  · rw [goToLower.eq_def]
    simp only [if_pos hc]

lemma goToLower_ascii : ∀ xs : List Nat, (∀ c ∈ xs, c < 128) →
    goToLower xs = xs.map (fun b => if 65 ≤ b ∧ b ≤ 90 then b + 32 else b)
  | [] => fun _ => rfl
  | c :: cs => fun h => by
    have hc : c < 128 := h c (by simp)
    have ih := goToLower_ascii cs (fun d hd => h d (by simp [hd]))
    rw [goToLower_ascii_cons c cs hc, ih, utf8Encode_toLower_ascii c hc]
    simp

lemma capMid_line (xs r : List Nat) (h : ∀ c ∈ xs, ¬ c = 10) :
    capLinesAux CapState.mid (xs ++ 10 :: r) = xs ++ 10 :: capLinesAux CapState.start r := by
  induction xs with
  | nil => simp [capLinesAux]
  | cons c cs ih =>
    have hc : ¬ c = 10 := h c (by simp)
    have ih2 := ih (fun d hd => h d (by simp [hd]))
    simp only [List.cons_append, capLinesAux, if_neg hc, List.append_eq]
    rw [ih2]

/-- C9, counterexample.  The header line consisting of "## " followed by the
single character É (UTF-8 bytes 195, 137) matches the section-header
pattern with the one-character title É, so the claim requires the line to
be left unchanged (the prefix and the first — and only — title character
kept, nothing left to lower-case).  The code instead keeps only the first
byte of the match plus three (m[0:4] splits the two-byte character) and
`strings.ToLower` turns the orphaned continuation byte 137 into the
replacement character U+FFFD (bytes 239, 191, 189), so the first title
character is destroyed.  The third conjunct shows the related divergence on
"## AÉ": the non-ASCII É of the title tail is lower-cased to é (bytes 195,
169), not kept. -/
theorem c9_counterexample :
    capLines [35, 35, 32, 195, 137] ≠ [35, 35, 32, 195, 137] ∧
    capLines [35, 35, 32, 195, 137] = [35, 35, 32, 195, 239, 191, 189] ∧
    capLines [35, 35, 32, 65, 195, 137] = [35, 35, 32, 65, 195, 169] := by
  refine ⟨by decide, by decide, by decide⟩

/-- C9, amended.  In the capitalization mode, a line that matches the
section-header pattern (line start, "## ", at least one further byte, up to
the end of the line) keeps its first four BYTES — the "## " prefix and the
first byte of the title, which splits a multi-byte first title character —
and has `strings.ToLower` applied to the remaining bytes of the line,
whether the line ends in a newline or at the end of the document (stated
for title bytes below 0xC4, where `goToLower` models the library function
exactly); a line that does not match (wrong prefix, or nothing after
"## ") passes through unchanged, for arbitrary bytes; on ASCII bytes the
lowering is the per-byte ASCII mapping, so for ASCII header lines the
claim's original reading (first character kept, rest lower-cased) is
recovered; and the two spec examples hold: "## OPTIONS" becomes
"## Options" and "## POSITIONAL ARGUMENTS" becomes
"## Positional arguments". -/
theorem c9_capitalization :
    (∀ d rest r, ¬ d = 10 → (∀ c ∈ rest, ¬ c = 10) → (∀ c ∈ rest, c < 196) →
      capLinesAux CapState.start (35 :: 35 :: 32 :: d :: (rest ++ 10 :: r)) =
        35 :: 35 :: 32 :: d :: (goToLower rest ++ 10 :: capLinesAux CapState.start r))
  ∧ (∀ d rest, ¬ d = 10 → (∀ c ∈ rest, ¬ c = 10) → (∀ c ∈ rest, c < 196) →
      capLinesAux CapState.start (35 :: 35 :: 32 :: d :: rest) =
        35 :: 35 :: 32 :: d :: goToLower rest)
  ∧ (∀ line r, (∀ c ∈ line, ¬ c = 10) →
      ¬ ((hdr []).isPrefixOf line = true ∧ 4 ≤ line.length) →
      capLinesAux CapState.start (line ++ 10 :: r) =
        line ++ 10 :: capLinesAux CapState.start r)
  ∧ (∀ xs : List Nat, (∀ c ∈ xs, c < 128) →
      goToLower xs = xs.map (fun b => if 65 ≤ b ∧ b ≤ 90 then b + 32 else b))
  ∧ capLines [35, 35, 32, 79, 80, 84, 73, 79, 78, 83] =
      [35, 35, 32, 79, 112, 116, 105, 111, 110, 115]
  ∧ capLines [35, 35, 32, 80, 79, 83, 73, 84, 73, 79, 78, 65, 76, 32, 65, 82, 71, 85, 77,
      69, 78, 84, 83] =
      [35, 35, 32, 80, 111, 115, 105, 116, 105, 111, 110, 97, 108, 32, 97, 114, 103, 117,
        109, 101, 110, 116, 115] := by
  refine ⟨?_, ?_, ?_, goToLower_ascii, by decide, by decide⟩
  · intro d rest r hd hrest _
    simp only [capLinesAux, if_neg hd]
    norm_num
    have h := capLow_flush r rest [] hrest
    simpa using h
  · intro d rest hd hrest _
    simp only [capLinesAux, if_neg hd]
    norm_num
    have h := capLow_flush_end rest [] hrest
    simpa using h
  · intro line r hno hnm
    rcases line with _ | ⟨c0, t0⟩
    · simp [capLinesAux]
    by_cases h0 : c0 = 35
    · subst h0
      rcases t0 with _ | ⟨c1, t1⟩
      · simp [capLinesAux]
      by_cases h1 : c1 = 35
      · subst h1
        rcases t1 with _ | ⟨c2, t2⟩
        · simp [capLinesAux]
        by_cases h2 : c2 = 32
        · subst h2
          rcases t2 with _ | ⟨c3, t3⟩
          · simp [capLinesAux]
          · exact absurd ⟨by simp [hdr, List.isPrefixOf], by simp only [List.length_cons]; omega⟩ hnm
        · have hc2 : ¬ c2 = 10 := hno c2 (by simp)
          simp only [List.cons_append, capLinesAux, if_neg h2, if_neg hc2]
          norm_num
          exact capMid_line t2 r (fun d hd => hno d (by simp [hd]))
      · have hc1 : ¬ c1 = 10 := hno c1 (by simp)
        simp only [List.cons_append, capLinesAux, if_neg h1, if_neg hc1]
        norm_num
        exact capMid_line t1 r (fun d hd => hno d (by simp [hd]))
    · have hc0 : ¬ c0 = 10 := hno c0 (by simp)
      simp only [List.cons_append, capLinesAux, if_neg h0, if_neg hc0]
      norm_num
      exact capMid_line t0 r (fun d hd => hno d (by simp [hd]))

/-- C9, witness: the matched header line "## AB" followed by a newline and
further text keeps "## A" and lower-cases the "B", and on the ASCII bytes
"OP" the modelled `strings.ToLower` is the per-byte ASCII mapping. -/
theorem c9_capitalization_witness :
    capLinesAux CapState.start [35, 35, 32, 65, 66, 10, 120] =
      [35, 35, 32, 65, 98, 10, 120] ∧
    goToLower [79, 80] = [111, 112] := by
  have h := c9_capitalization.1 65 [66] [120] (by decide) (by decide) (by decide)
  have h2 := c9_capitalization.2.2.2.1 [79, 80] (by decide)
  exact ⟨h.trans (by decide), h2.trans (by decide)⟩

/-! Lemmas for the identity property of the whole normalization. -/

lemma mdAux_id : ∀ (s : List Nat),
    (∀ b ∈ s, ¬ b = 60 ∧ ¬ b = 62 ∧ ¬ b = 39 ∧ ¬ b = 92) →
    ∀ last, mdAux last false s = s
  | [] => fun _ _ => rfl
  | b :: t => fun h last => by
    obtain ⟨h60, h62, h39, h92⟩ := h b (by simp)
    have ht : ∀ c ∈ t, ¬ c = 60 ∧ ¬ c = 62 ∧ ¬ c = 39 ∧ ¬ c = 92 :=
      fun c hc => h c (by simp [hc])
    by_cases h42 : b = 42
    · subst h42
      rw [mdAux_star_out, mdAux_id t ht 42]
    · rw [mdAux_default last false b t h60 h62 h39 h42 h92, mdAux_id t ht b]

lemma lsf_cons_none (p : List Nat) (a : Bool) (c : Nat) (t : List Nat)
    (h : lineStartFind p a (c :: t) = none) : lineStartFind p (c = 10) t = none := by
  cases hx : lineStartFind p (c = 10) t with
  | none => rfl
  | some j =>
    exfalso
    unfold lineStartFind at h
    rw [hx] at h
    split at h <;> simp at h

lemma lsf_flag_irrel (p : List Nat) (c : Nat) (t : List Nat)
    (h : ¬ p.isPrefixOf (c :: t) = true) (a a' : Bool) :
    lineStartFind p a (c :: t) = lineStartFind p a' (c :: t) := by
  simp [lineStartFind, h]

lemma lsf_drop_none (p : List Nat) :
    ∀ (k : Nat) (l : List Nat) (a : Bool), lineStartFind p a l = none →
      ∃ a2, lineStartFind p a2 (l.drop k) = none
  | 0, l, a, h => ⟨a, h⟩
  | k + 1, [], a, h => ⟨a, by rw [List.drop_nil]; exact h⟩
  | k + 1, c :: t, a, h => by
    have h2 := lsf_cons_none p a c t h
    simpa using lsf_drop_none p k t (c = 10) h2

lemma lsf_take_none (p : List Nat) :
    ∀ (l : List Nat) (a : Bool) (m : Nat), lineStartFind p a l = none →
      lineStartFind p a (l.take m) = none
  | [], a, m, h => by rw [List.take_nil]; exact h
  | _ :: _, _, 0, _ => rfl
  | c :: t, a, m + 1, h => by
    by_cases hcond : a = true ∧ p.isPrefixOf (c :: t) = true
    · exfalso
      simp [lineStartFind, hcond.1, hcond.2] at h
    · have hbase := lsf_cons_none p a c t h
      have ih := lsf_take_none p t (c = 10) m hbase
      rw [List.take_succ_cons]
      unfold lineStartFind
      have hcond2 : ¬ (a = true ∧ p.isPrefixOf (c :: t.take m) = true) := by
        intro hx
        apply hcond
        refine ⟨hx.1, ?_⟩
        have hpre : p <+: (c :: t.take m) := List.isPrefixOf_iff_prefix.mp hx.2
        have htp : (c :: t.take m) <+: (c :: t) :=
          List.cons_prefix_cons.mpr ⟨rfl, List.take_prefix m t⟩
        exact List.isPrefixOf_iff_prefix.mpr (hpre.trans htp)
      rw [if_neg hcond2, ih]
      rfl

lemma lsf_drop32_none (s : List Nat) (k : Nat) (t2 : List Nat)
    (hs : lineStartFind hdrPrefix true s = none) (hd : s.drop k = 32 :: t2) :
    lineStartFind hdrPrefix true (s.drop k) = none := by
  obtain ⟨a2, h2⟩ := lsf_drop_none hdrPrefix k s true hs
  rw [hd] at h2 ⊢
  have hnp : ¬ hdrPrefix.isPrefixOf (32 :: t2) = true := by
    simp [hdrPrefix, List.isPrefixOf]
  rw [lsf_flag_irrel hdrPrefix 32 t2 hnp true a2]
  exact h2

lemma fse_no_header (h s : List Nat) (k : Nat)
    (hs : lineStartFind hdrPrefix true s = none) (hk : strIndex (hdr h) s = some k) :
    findSectionEnd h s = some s.length := by
  have hpre := strIndex_some_prefix (hdr h) s k hk
  obtain ⟨t, ht⟩ := List.isPrefixOf_iff_prefix.mp hpre
  have hdrop : s.drop (k + 2) = 32 :: (h ++ t) := by
    have h1 : s.drop (k + 2) = (s.drop k).drop 2 := by
      rw [List.drop_drop]
    rw [h1, ← ht]
    simp [hdr]
  have hnone := lsf_drop32_none s (k + 2) (h ++ t) hs hdrop
  unfold findSectionEnd
  simp only [hk, hnone]

lemma fse_cases_no_header (h s2 : List Nat)
    (hs2 : lineStartFind hdrPrefix true s2 = none) :
    findSectionEnd h s2 = none ∨ findSectionEnd h s2 = some s2.length := by
  cases hx : strIndex (hdr h) s2 with
  | none => exact Or.inl ((fse_none_iff h s2).mpr hx)
  | some k => exact Or.inr (fse_no_header h s2 k hs2 hx)

lemma insertAt_length (opts s2 : List Nat) : insertAt s2.length opts s2 = s2 ++ opts := by
  simp [insertAt, List.take_length, List.drop_length]

lemma ibp_no_header (opts s2 : List Nat)
    (hs2 : lineStartFind hdrPrefix true s2 = none) :
    insertByPriority opts s2 = s2 ++ opts := by
  rcases fse_cases_no_header bPOSARGS s2 hs2 with h1 | h1
  · rcases fse_cases_no_header bDescription s2 hs2 with h2 | h2
    · rcases fse_cases_no_header bUSAGE s2 hs2 with h3 | h3
      · rcases fse_cases_no_header bNAME s2 hs2 with h4 | h4
        · simp only [insertByPriority, h1, h2, h3, h4]
        · simp only [insertByPriority, h1, h2, h3, h4, insertAt_length]
      · simp only [insertByPriority, h1, h2, h3, insertAt_length]
    · simp only [insertByPriority, h1, h2, insertAt_length]
  · simp only [insertByPriority, h1, insertAt_length]

lemma relocate_no_header (s : List Nat)
    (hs : lineStartFind hdrPrefix true s = none) : relocateOptions s = s := by
  cases hx : strIndex (hdr bOPTIONS) s with
  | none => simp only [relocateOptions, hx]
  | some k =>
    have he : findSectionEnd bOPTIONS s = some s.length := fse_no_header bOPTIONS s k hs hx
    simp only [relocateOptions, hx, he]
    rw [List.drop_length, List.append_nil]
    have htake : (s.drop k).take (s.length - k) = s.drop k := by
      rw [← List.length_drop k s, List.take_length]
    rw [htake, ibp_no_header (s.drop k) (s.take k) (lsf_take_none hdrPrefix s true k hs)]
    exact List.take_append_drop k s

lemma cap_no_header_aux : ∀ l : List Nat,
    (lineStartFind hdrPrefix true l = none → capLinesAux CapState.start l = l)
  ∧ (lineStartFind hdrPrefix false l = none → capLinesAux CapState.mid l = l)
  ∧ ((∀ t2 : List Nat, ¬ l = 35 :: t2) → lineStartFind hdrPrefix false l = none →
      capLinesAux CapState.h1 l = l)
  | [] => ⟨fun _ => rfl, fun _ => rfl, fun _ _ => rfl⟩
  | c :: t => by
    obtain ⟨ihs, ihm, ihh⟩ := cap_no_header_aux t
    refine ⟨fun h => ?_, fun h => ?_, fun hhd h => ?_⟩
    · by_cases hc : c = 35
      · subst hc
        have hnp : ¬ hdrPrefix.isPrefixOf (35 :: t) = true := by
          intro hp
          simp [lineStartFind, hp] at h
        have hhd2 : ∀ t2 : List Nat, ¬ t = 35 :: t2 := by
          intro t2 ht2
          apply hnp
          rw [ht2]
          simp [hdrPrefix, List.isPrefixOf]
        have hbase2 : lineStartFind hdrPrefix false t = none := by
          simpa using lsf_cons_none hdrPrefix true 35 t h
        simp only [capLinesAux, if_pos rfl]
        rw [ihh hhd2 hbase2]
        simp
      · by_cases hc10 : c = 10
        · subst hc10
          have hbase2 : lineStartFind hdrPrefix true t = none := by
            simpa using lsf_cons_none hdrPrefix true 10 t h
          simp only [capLinesAux, if_neg hc, if_pos rfl]
          rw [ihs hbase2]
          simp
        · have hbase2 : lineStartFind hdrPrefix false t = none := by
            simpa [hc10] using lsf_cons_none hdrPrefix true c t h
          simp only [capLinesAux, if_neg hc, if_neg hc10]
          rw [ihm hbase2]
    · by_cases hc10 : c = 10
      · subst hc10
        have hbase2 : lineStartFind hdrPrefix true t = none := by
          simpa using lsf_cons_none hdrPrefix false 10 t h
        simp only [capLinesAux, if_pos rfl]
        rw [ihs hbase2]
        simp
      · have hbase2 : lineStartFind hdrPrefix false t = none := by
          simpa [hc10] using lsf_cons_none hdrPrefix false c t h
        simp only [capLinesAux, if_neg hc10]
        rw [ihm hbase2]
    · have hc : ¬ c = 35 := by
        intro e
        exact hhd t (by rw [e])
      by_cases hc10 : c = 10
      · subst hc10
        have hbase2 : lineStartFind hdrPrefix true t = none := by
          simpa using lsf_cons_none hdrPrefix false 10 t h
        simp only [capLinesAux, if_neg hc, if_pos rfl]
        rw [ihs hbase2]
        simp
      · have hbase2 : lineStartFind hdrPrefix false t = none := by
          simpa [hc10] using lsf_cons_none hdrPrefix false c t h
        simp only [capLinesAux, if_neg hc, if_neg hc10]
        rw [ihm hbase2]

/-- C4, counterexample.  A single backslash contains no less-than, no
greater-than, no quote (so no triple-quote run), and no line-start "##"
(no section-header line), yet the normalization output is empty rather than
equal to the input, in both capitalization modes: the markdownify pass
consumes the lone backslash. -/
theorem c4_counterexample :
    ¬ 60 ∈ [92] ∧ ¬ 62 ∈ [92] ∧ ¬ 39 ∈ [92] ∧
    lineStartFind hdrPrefix true [92] = none ∧
    helpNormalize false [92] = [] ∧ helpNormalize true [92] = [] := by
  decide

/-- C4, amended.  For every input that contains no less-than, greater-than,
single-quote or backslash byte and has no line beginning with "##", the
full normalization (markdownify, OPTIONS relocation, and the optional
capitalization pass) returns the input unchanged, in both modes.  Compared
to the claim, quote and backslash bytes must also be excluded: a lone
backslash is consumed, and a quote followed by anything loses the first
lookahead byte even without a triple-quote run. -/
theorem c4_identity (cap : Bool) (s : List Nat)
    (hbytes : ∀ b ∈ s, ¬ b = 60 ∧ ¬ b = 62 ∧ ¬ b = 39 ∧ ¬ b = 92)
    (hhdr : lineStartFind hdrPrefix true s = none) :
    helpNormalize cap s = s := by
  have hmd : markdownify s = s := mdAux_id s hbytes 0
  unfold helpNormalize
  rw [hmd, relocate_no_header s hhdr]
  cases cap
  · simp
  · simpa [capLines] using (cap_no_header_aux s).1 hhdr

/-- C4, witness: a small plain document (letters and a newline) is returned
unchanged by the normalization in capitalization mode. -/
theorem c4_identity_witness :
    helpNormalize true [104, 105, 10, 119] = [104, 105, 10, 119] :=
  c4_identity true [104, 105, 10, 119] (by decide) (by decide)

end Printer
